import Mathlib

/-!
# Shallow embedding of the `rosu-nps` crate

This file embeds the two source files of the repository:

* `src/calc.rs` — beatmap statistics over `rosu_map::Beatmap`
  (`get_play_length`, `calculate_avg_nps`, `to_sec`,
  `calculate_distribution`, `calculate_by_frequency`);
* `src/lib.rs` — the timestamp-slice pipeline
  (`calculate_average_notes_per_second` and its `while` loop).

Modelling conventions:

* Rust `f64` values are modelled as `ℚ` (exact arithmetic).  Division by
  zero is total and yields `0` in `ℚ`, where IEEE yields `±∞`/NaN; every
  theorem below whose truth could depend on that convention says so in its
  doc comment.
* Rust `i32` is modelled as `Int`; the `as i32` cast from `f64` is modelled
  faithfully as truncation toward zero with saturation at the `i32` range
  bounds, and `as usize` as truncation with negative/huge values clamped to
  `[0, 2^64-1]`, the semantics of Rust numeric casts.
* The `while` loop of `calculate_average_notes_per_second` is modelled with
  explicit state passing and a fuel parameter: `none` means the fuel ran
  out before the loop exited, so “the loop terminates” is “for some fuel
  the result is `some _`”, and non-termination is `∀ fuel, result = none`.
* `slice::partition_point(|&x| x < e)` is specified for partitioned
  (sorted) input, where it returns the number of elements `< e`; it is
  embedded as the length of the `takeWhile (· < e)` prefix, which agrees
  with the binary search on every sorted slice.
-/

/-- Truncation of a rational toward zero, the rounding used by the Rust
`as` casts from `f64` to integer types. -/
def ratTrunc (q : ℚ) : Int :=
  if q < 0 then ⌈q⌉ else ⌊q⌋

/-- The `f64 as i32` cast: truncate toward zero, saturating at the
`i32` bounds. -/
def f64ToI32 (q : ℚ) : Int :=
  if ratTrunc q < -(2 ^ 31) then -(2 ^ 31)
  else if ratTrunc q > 2 ^ 31 - 1 then 2 ^ 31 - 1
  else ratTrunc q

/-- The `f64 as usize` cast: negative values go to `0`, huge values
saturate at `usize::MAX` (64-bit). -/
def f64ToUsize (q : ℚ) : Nat :=
  min (ratTrunc q).toNat (2 ^ 64 - 1)

/-- Rust `f64::round`: round to the nearest integer, ties away from zero. -/
def f64Round (q : ℚ) : Int :=
  if q < 0 then -⌊-q + 1 / 2⌋ else ⌊q + 1 / 2⌋

/-- The `i64/integer as i32` saturating clamp used after `f64Round`
(`.round() as i32` first rounds, then casts the rounded value). -/
def intToI32 (n : Int) : Int :=
  max (-(2 ^ 31)) (min (2 ^ 31 - 1) n)

/-- A hit object of `rosu_map::Beatmap`; the crate only reads
`start_time` (milliseconds, `f64`). -/
structure HitObject where
  start_time : ℚ
deriving DecidableEq, Inhabited

/-- The part of `rosu_map::Beatmap` the crate uses: the ordered list of
hit objects. -/
structure Beatmap where
  hit_objects : List HitObject
deriving DecidableEq, Inhabited

/-- Embedding of `get_play_length` (src/calc.rs): duration in ms between the first and
last hit objects, `None` on an empty map. -/
def get_play_length (map : Beatmap) : Option ℚ := do
  let first ← map.hit_objects.head?
  let last ← map.hit_objects.getLast?
  pure (last.start_time - first.start_time)

/-- Embedding of `calculate_avg_nps` (src/calc.rs): `None` on an empty map, otherwise
`hit / (play_length / 1000)`. -/
def calculate_avg_nps (map : Beatmap) : Option ℚ :=
  if map.hit_objects.isEmpty then none
  else do
    let hit : ℚ := map.hit_objects.length
    let pl ← get_play_length map
    pure (hit / (pl / 1000))

/-- Embedding of `to_sec` (src/calc.rs): milliseconds to seconds. -/
def to_sec (ms : ℚ) : ℚ :=
  ms / 1000.0

/-- The bucket index computed for one hit object inside
the scan loop of `calculate_distribution`:
`((relative_time * inv_block_duration) as usize).min(block_size - 1)`. -/
def bucketIndex (first_note_time inv_block_duration : ℚ) (block_size : Nat)
    (hit_object : HitObject) : Nat :=
  min (f64ToUsize ((hit_object.start_time - first_note_time) * inv_block_duration))
    (block_size - 1)

/-- The counting loop of `calculate_distribution` (src/calc.rs):
`counts` starts as `vec![0usize; block_size]` and each hit object
increments the bucket at its (clamped) index. -/
def distributionCounts (hit_objects : List HitObject)
    (first_note_time inv_block_duration : ℚ) (block_size : Nat) : List Nat :=
  hit_objects.foldl
    (fun counts hit_object =>
      let index := bucketIndex first_note_time inv_block_duration block_size hit_object
      counts.set index (counts.getD index 0 + 1))
    (List.replicate block_size 0)

/-- Embedding of `calculate_distribution` (src/calc.rs): note-density distribution over
`block` equal time blocks; `None` when `block <= 0` or the map is empty. -/
def calculate_distribution (map : Beatmap) (block : Int) : Option (List ℚ) :=
  if block ≤ 0 then none
  else if map.hit_objects.isEmpty then none
  else do
    let play_length ← get_play_length map
    let first ← map.hit_objects.head?
    let first_note_time := first.start_time
    let actual_duration := play_length
    let block_duration := actual_duration / (block : ℚ)
    let block_size := block.toNat
    let inv_block_duration := 1 / block_duration
    let counts := distributionCounts map.hit_objects first_note_time
      inv_block_duration block_size
    let sec_duration := to_sec block_duration
    pure (counts.map fun (count : Nat) => (count : ℚ) / sec_duration)

/-- Embedding of `calculate_by_frequency` (src/calc.rs): `None` when `frequency <= 0`,
otherwise delegate to `calculate_distribution` with
`(1/frequency).round() as i32` blocks. -/
def calculate_by_frequency (map : Beatmap) (frequency : ℚ) : Option (List ℚ) :=
  if frequency ≤ 0 then none
  else
    let samples := intToI32 (f64Round (1 / frequency))
    calculate_distribution map samples

/-- Embedding of `KeyValue` (src/lib.rs): a timestamp paired with the average NPS of
the interval starting there. -/
structure KeyValue where
  key : Int
  value : ℚ
deriving DecidableEq, Inhabited

/-- Embedding of `timings.partition_point(|&x| x < e)` on a sorted slice: the number of
elements strictly below `e`, i.e. the length of the `takeWhile` prefix. -/
def partitionPointLt (timings : List Int) (e : Int) : Nat :=
  (timings.takeWhile (fun x => decide (x < e))).length

/-- The `while interval_start < end_time` loop of
`calculate_average_notes_per_second` (src/lib.rs), with its mutable state
(`result`, `interval_start`, `current_note_index`) passed explicitly and a
fuel parameter; `d` is the step `interval_ms as i32`, recomputed to the
same value on every Rust iteration.  Returns the accumulated `result`
together with the final `interval_start` and `current_note_index`. -/
def npsLoop (timings : List Int) (d : Int) (interval_ms : ℚ) (end_time : Int) :
    Nat → Int → Nat → Option (List KeyValue × Int × Nat)
  | 0, interval_start, current_note_index =>
    if interval_start < end_time then none
    else some ([], interval_start, current_note_index)
  | fuel + 1, interval_start, current_note_index =>
    if interval_start < end_time then
      let interval_end := interval_start + d
      let interval_end_index := partitionPointLt timings interval_end
      let note_count := interval_end_index - current_note_index
      let interval_seconds := interval_ms / 1000
      let nps := (note_count : ℚ) / interval_seconds
      match npsLoop timings d interval_ms end_time fuel interval_end interval_end_index with
      | some (rest, s, i) => some (⟨interval_start, nps⟩ :: rest, s, i)
      | none => none
    else some ([], interval_start, current_note_index)

/-- Embedding of `calculate_average_notes_per_second` (src/lib.rs), under fuel
semantics: `some (.ok r)` / `some (.error e)` when the Rust function
returns `Ok(r)` / `Err(e)` within `fuel` loop iterations, `none` when the
fuel is exhausted with the loop still running. -/
def calculate_average_notes_per_second (timings : List Int) (frequency : ℚ)
    (fuel : Nat) : Option (Except String (List KeyValue)) :=
  if timings.isEmpty then some (.error "The timings vector is empty.")
  else
    let start_time := timings.headD 0
    let end_time := timings.getLastD 0
    let t_duration : Int := end_time - start_time
    let interval_ms : ℚ := (t_duration : ℚ) * frequency / 100
    if interval_ms ≤ 0 then
      some (.error "Invalid duration or frequency is too high.")
    else
      let d := f64ToI32 interval_ms
      match npsLoop timings d interval_ms end_time fuel start_time 0 with
      | some (result, _, _) => some (.ok result)
      | none => none

/-! ## Helper lemmas -/

section Helpers

theorem get_play_length_eq_some {m : Beatmap} (h : m.hit_objects ≠ []) :
    get_play_length m =
      some ((m.hit_objects.getLast h).start_time - (m.hit_objects.headD default).start_time) := by
  obtain ⟨l⟩ := m
  simp only [Beatmap.hit_objects] at h ⊢
  obtain ⟨a, t, e⟩ := List.exists_cons_of_ne_nil h
  subst e
  simp [get_play_length, List.getLast?_eq_getLast _ h]

theorem sum_set_getD_succ (counts : List Nat) (idx : Nat) (h : idx < counts.length) :
    (counts.set idx (counts.getD idx 0 + 1)).sum = counts.sum + 1 := by
  induction counts generalizing idx with
  | nil => simp at h
  | cons c cs ih =>
    cases idx with
    | zero =>
      simp only [List.getD_cons_zero, List.set, List.sum_cons]
      omega
    | succ n =>
      simp only [List.length_cons, Nat.succ_lt_succ_iff] at h
      simp only [List.set, List.getD_cons_succ, List.sum_cons, ih n h]
      omega

theorem bucketIndex_lt (first_note_time inv_block_duration : ℚ) {block_size : Nat}
    (hs : 0 < block_size) (hit_object : HitObject) :
    bucketIndex first_note_time inv_block_duration block_size hit_object < block_size := by
  have : bucketIndex first_note_time inv_block_duration block_size hit_object ≤
      block_size - 1 := min_le_right _ _
  omega

theorem distributionCounts_length_sum (hit_objects : List HitObject)
    (first_note_time inv_block_duration : ℚ) {block_size : Nat} (hs : 0 < block_size) :
    (distributionCounts hit_objects first_note_time inv_block_duration block_size).length
        = block_size ∧
      (distributionCounts hit_objects first_note_time inv_block_duration block_size).sum
        = hit_objects.length := by
  unfold distributionCounts
  suffices h : ∀ counts : List Nat, counts.length = block_size →
      (hit_objects.foldl
          (fun counts hit_object =>
            let index := bucketIndex first_note_time inv_block_duration block_size hit_object
            counts.set index (counts.getD index 0 + 1)) counts).length = block_size ∧
        (hit_objects.foldl
          (fun counts hit_object =>
            let index := bucketIndex first_note_time inv_block_duration block_size hit_object
            counts.set index (counts.getD index 0 + 1)) counts).sum
          = counts.sum + hit_objects.length by
    have := h (List.replicate block_size 0) (by simp)
    simpa using this
  intro counts hlen
  induction hit_objects generalizing counts with
  | nil => simp [hlen]
  | cons ho hos ih =>
    simp only [List.foldl_cons]
    have hidx : bucketIndex first_note_time inv_block_duration block_size ho < counts.length := by
      rw [hlen]; exact bucketIndex_lt _ _ hs ho
    have hlen' : (counts.set (bucketIndex first_note_time inv_block_duration block_size ho)
        ((counts.getD (bucketIndex first_note_time inv_block_duration block_size ho) 0) + 1)).length
        = block_size := by simp [hlen]
    obtain ⟨h1, h2⟩ := ih _ hlen'
    refine ⟨h1, ?_⟩
    rw [h2, sum_set_getD_succ _ _ hidx]
    simp only [List.length_cons]
    omega

theorem calculate_distribution_spec {m : Beatmap} {block : Int} (hb : 0 < block)
    (hne : m.hit_objects ≠ []) :
    ∃ v : List ℚ, calculate_distribution m block = some v ∧ v.length = block.toNat := by
  obtain ⟨l⟩ := m
  simp only [Beatmap.hit_objects] at hne
  obtain ⟨a, t, e⟩ := List.exists_cons_of_ne_nil hne
  subst e
  have hs : 0 < block.toNat := by omega
  unfold calculate_distribution
  rw [if_neg (by omega)]
  rw [get_play_length_eq_some (by simp : ({ hit_objects := a :: t } : Beatmap).hit_objects ≠ [])]
  simp only [Beatmap.hit_objects, List.isEmpty_cons, Bool.false_eq_true, if_false,
    List.head?_cons, Option.some_bind, Option.pure_def]
  refine ⟨_, rfl, ?_⟩
  rw [List.length_map]
  exact (distributionCounts_length_sum _ _ _ hs).1

theorem calculate_avg_nps_eq_some {m : Beatmap} (hne : m.hit_objects ≠ []) :
    calculate_avg_nps m = some ((m.hit_objects.length : ℚ) /
      (((m.hit_objects.getLast hne).start_time - (m.hit_objects.headD default).start_time)
        / 1000)) := by
  unfold calculate_avg_nps
  rw [if_neg (by simpa using hne), get_play_length_eq_some hne]
  simp

end Helpers

/-! ## Claims -/

/-- C3: for every non-empty timestamp sequence (sorted or not — sortedness
is not needed) and every bucket count strictly greater than 0,
`calculate_distribution` returns a successful result whose vector has
exactly `block` entries. -/
theorem claim_C3_distribution_length (m : Beatmap) (block : Int)
    (hne : m.hit_objects ≠ []) (hb : 0 < block) :
    ∃ v : List ℚ, calculate_distribution m block = some v ∧ v.length = block.toNat :=
  calculate_distribution_spec hb hne

/-- Witness for C3 at the two-object map `[0, 100]` with 4 blocks. -/
theorem claim_C3_distribution_length_witness :
    ∃ v : List ℚ, calculate_distribution ⟨[⟨0⟩, ⟨100⟩]⟩ 4 = some v ∧ v.length = (4 : Int).toNat :=
  claim_C3_distribution_length ⟨[⟨0⟩, ⟨100⟩]⟩ 4 (by simp) (by norm_num)

/-- C9: `calculate_distribution` fails exactly when the bucket count is
non-positive or the event sequence is empty; every other input yields a
successful result. -/
theorem claim_C9_distribution_failure_domain (m : Beatmap) (block : Int) :
    calculate_distribution m block = none ↔ block ≤ 0 ∨ m.hit_objects = [] := by
  constructor
  · intro h
    by_contra hc
    push_neg at hc
    obtain ⟨hb, hne⟩ := hc
    obtain ⟨v, hv, _⟩ := calculate_distribution_spec (show 0 < block by omega) hne
    rw [hv] at h
    exact Option.noConfusion h
  · intro h
    rcases h with h | h
    · unfold calculate_distribution
      rw [if_pos h]
    · unfold calculate_distribution
      by_cases hb : block ≤ 0
      · rw [if_pos hb]
      · rw [if_neg hb]
        simp [h]

/-- C5: with a non-empty map, positive duration and a positive bucket
count, the clamped bucket index of every hit object (with exactly the
arguments `calculate_distribution` passes: first note time, inverse block
duration `1 / (play_length / block)`, size `block.toNat`) lies strictly
below the bucket count, and the bucket counters sum to the total number
of events — each event, including one exactly on a bucket seam, lands in
exactly one bucket. -/
theorem claim_C5_scan_counts_partition (m : Beatmap) (block : Int) (pl : ℚ)
    (hne : m.hit_objects ≠ []) (hb : 0 < block)
    (hpl : get_play_length m = some pl) (hdur : 0 < pl) :
    (∀ ho ∈ m.hit_objects,
        bucketIndex (m.hit_objects.headD default).start_time (1 / (pl / (block : ℚ)))
          block.toNat ho < block.toNat) ∧
      (distributionCounts m.hit_objects (m.hit_objects.headD default).start_time
          (1 / (pl / (block : ℚ))) block.toNat).sum = m.hit_objects.length := by
  have hs : 0 < block.toNat := by omega
  exact ⟨fun ho _ => bucketIndex_lt _ _ hs ho,
    (distributionCounts_length_sum _ _ _ hs).2⟩

/-- Witness for C5 at the map `[0, 100]` with 4 blocks. -/
theorem claim_C5_scan_counts_partition_witness :
    (∀ ho ∈ ({ hit_objects := [⟨0⟩, ⟨100⟩] } : Beatmap).hit_objects,
        bucketIndex (({ hit_objects := [⟨0⟩, ⟨100⟩] } : Beatmap).hit_objects.headD
            default).start_time (1 / ((100 : ℚ) / ((4 : Int) : ℚ)))
          (4 : Int).toNat ho < (4 : Int).toNat) ∧
      (distributionCounts ({ hit_objects := [⟨0⟩, ⟨100⟩] } : Beatmap).hit_objects
          (({ hit_objects := [⟨0⟩, ⟨100⟩] } : Beatmap).hit_objects.headD default).start_time
          (1 / ((100 : ℚ) / ((4 : Int) : ℚ))) (4 : Int).toNat).sum
        = ({ hit_objects := [⟨0⟩, ⟨100⟩] } : Beatmap).hit_objects.length :=
  claim_C5_scan_counts_partition ⟨[⟨0⟩, ⟨100⟩]⟩ 4 100 (by simp) (by norm_num)
    (by norm_num [get_play_length]) (by norm_num)

/-- C7: `calculate_avg_nps` fails exactly on the empty map, and on every
map with a positive duration it returns the event count divided by
`(last - first) / 1000`. -/
theorem claim_C7_avg_nps_value (m : Beatmap) (fst lst : HitObject)
    (hf : m.hit_objects.head? = some fst) (hl : m.hit_objects.getLast? = some lst)
    (hdur : 0 < lst.start_time - fst.start_time) :
    (∀ m' : Beatmap, calculate_avg_nps m' = none ↔ m'.hit_objects = []) ∧
      calculate_avg_nps m = some ((m.hit_objects.length : ℚ) /
        ((lst.start_time - fst.start_time) / 1000)) := by
  constructor
  · intro m'
    constructor
    · intro h
      by_contra hne
      rw [calculate_avg_nps_eq_some hne] at h
      exact Option.noConfusion h
    · intro h
      unfold calculate_avg_nps
      rw [if_pos (by simpa using h)]
  · have hne : m.hit_objects ≠ [] := by
      intro e
      rw [e] at hf
      exact Option.noConfusion hf
    rw [calculate_avg_nps_eq_some hne]
    have h1 : m.hit_objects.getLast hne = lst := by
      rw [List.getLast?_eq_getLast _ hne] at hl
      exact Option.some_injective _ hl
    have h2 : m.hit_objects.headD default = fst := by
      rw [List.headD_eq_head?, hf]
      rfl
    rw [h1, h2]

/-- Witness for C7 at the map `[0, 500]`. -/
theorem claim_C7_avg_nps_value_witness :
    (∀ m' : Beatmap, calculate_avg_nps m' = none ↔ m'.hit_objects = []) ∧
      calculate_avg_nps ⟨[⟨0⟩, ⟨500⟩]⟩ =
        some ((({ hit_objects := [⟨0⟩, ⟨500⟩] } : Beatmap).hit_objects.length : ℚ) /
          (((500 : ℚ) - 0) / 1000)) :=
  claim_C7_avg_nps_value ⟨[⟨0⟩, ⟨500⟩]⟩ ⟨0⟩ ⟨500⟩ (by simp) (by simp) (by norm_num)

/-- C6: for a positive frequency whose reciprocal rounds (ties away from
zero, the `f64::round` rule) to a bucket count `k` in `i32` range,
`calculate_by_frequency` returns exactly `calculate_distribution` at `k`;
consequently any two such frequencies rounding to the same `k` produce
identical distributions. -/
theorem claim_C6_frequency_delegates (m : Beatmap) (frequency : ℚ) (k : Int)
    (hf : 0 < frequency) (hk : f64Round (1 / frequency) = k) (hkr : k ≤ 2 ^ 31 - 1) :
    calculate_by_frequency m frequency = calculate_distribution m k ∧
      ∀ f2 : ℚ, 0 < f2 → f64Round (1 / f2) = k →
        calculate_by_frequency m f2 = calculate_by_frequency m frequency := by
  have hk0 : 0 ≤ k := by
    rw [← hk]
    unfold f64Round
    rw [if_neg (not_lt.2 (by positivity : (0 : ℚ) ≤ 1 / frequency))]
    have : (0 : ℚ) ≤ 1 / frequency + 1 / 2 := by positivity
    exact_mod_cast Int.le_floor.2 (by exact_mod_cast this)
  have hcast : intToI32 k = k := by
    unfold intToI32
    omega
  have hmain : calculate_by_frequency m frequency = calculate_distribution m k := by
    unfold calculate_by_frequency
    rw [if_neg (by exact not_le.2 hf), hk, hcast]
  refine ⟨hmain, fun f2 hf2 hk2 => ?_⟩
  rw [hmain]
  unfold calculate_by_frequency
  rw [if_neg (by exact not_le.2 hf2), hk2, hcast]

/-- Witness for C6: frequency `1/4` rounds to 4 buckets. -/
theorem claim_C6_frequency_delegates_witness :
    calculate_by_frequency ⟨[⟨0⟩, ⟨100⟩]⟩ (1 / 4) = calculate_distribution ⟨[⟨0⟩, ⟨100⟩]⟩ 4 ∧
      ∀ f2 : ℚ, 0 < f2 → f64Round (1 / f2) = 4 →
        calculate_by_frequency ⟨[⟨0⟩, ⟨100⟩]⟩ f2 = calculate_by_frequency ⟨[⟨0⟩, ⟨100⟩]⟩ (1 / 4) :=
  claim_C6_frequency_delegates ⟨[⟨0⟩, ⟨100⟩]⟩ (1 / 4) 4 (by norm_num)
    (by norm_num [f64Round]) (by norm_num)

/-- C10: every frequency strictly above 2 is in the failure domain of
`calculate_by_frequency` even on a non-empty map: `1/f < 1/2` rounds to a
bucket count of 0, which `calculate_distribution` rejects. -/
theorem claim_C10_high_frequency_none (m : Beatmap) (frequency : ℚ)
    (hne : m.hit_objects ≠ []) (hf : 2 < frequency) :
    calculate_by_frequency m frequency = none := by
  have hf0 : (0 : ℚ) < frequency := by linarith
  have h1 : (0 : ℚ) < 1 / frequency := by positivity
  have h2 : 1 / frequency < 1 / 2 := by
    rw [div_lt_div_iff hf0 (by norm_num)]
    linarith
  have hr : f64Round (1 / frequency) = 0 := by
    unfold f64Round
    rw [if_neg (not_lt.2 (le_of_lt h1))]
    rw [Int.floor_eq_zero_iff]
    constructor
    · positivity
    · linarith
  unfold calculate_by_frequency
  rw [if_neg (not_le.2 hf0), hr]
  have : intToI32 0 = 0 := by unfold intToI32; omega
  rw [this]
  unfold calculate_distribution
  rw [if_pos (le_refl 0)]

/-- Witness for C10 at frequency 3 on a one-object map. -/
theorem claim_C10_high_frequency_none_witness :
    calculate_by_frequency ⟨[⟨0⟩]⟩ 3 = none :=
  claim_C10_high_frequency_none ⟨[⟨0⟩]⟩ 3 (by simp) (by norm_num)

/-- C8 counterexample: on the zero-duration two-event map `[5, 5]` the
claim says `calculate_avg_nps` returns the raw event count `2`; the code
instead computes `2 / (0/1000)`, a division by zero (`+∞` under IEEE
`f64`, `0` in this exact-arithmetic model) — under either semantics the
result differs from `some 2`. -/
theorem claim_C8_counterexample :
    calculate_avg_nps ⟨[⟨5⟩, ⟨5⟩]⟩ = some ((2 : ℚ) / ((5 - 5 : ℚ) / 1000)) ∧
      calculate_avg_nps ⟨[⟨5⟩, ⟨5⟩]⟩ ≠ some (2 : ℚ) := by
  have h := calculate_avg_nps_eq_some
    (by simp : ({ hit_objects := [⟨5⟩, ⟨5⟩] } : Beatmap).hit_objects ≠ [])
  simp only [List.getLast, List.headD] at h
  constructor
  · simpa using h
  · rw [h]
    intro hc
    have := Option.some_injective _ hc
    norm_num at this

/-- C8 amended: on every non-empty map with duration ≤ 0,
`calculate_avg_nps` still applies `count / (duration / 1000)` with no
degenerate-duration branch, so the result is the division-by-zero
artifact (0 in this exact model, `+∞` under IEEE) for zero duration, or a
negative value for negative duration — never `some` of the raw event
count. -/
theorem claim_C8_amended_avg_nps_degenerate (m : Beatmap) (fst lst : HitObject)
    (hf : m.hit_objects.head? = some fst) (hl : m.hit_objects.getLast? = some lst)
    (hdur : lst.start_time - fst.start_time ≤ 0) :
    calculate_avg_nps m = some ((m.hit_objects.length : ℚ) /
        ((lst.start_time - fst.start_time) / 1000)) ∧
      calculate_avg_nps m ≠ some ((m.hit_objects.length : ℚ)) := by
  have hne : m.hit_objects ≠ [] := by
    intro e
    rw [e] at hf
    exact Option.noConfusion hf
  have h1 : m.hit_objects.getLast hne = lst := by
    rw [List.getLast?_eq_getLast _ hne] at hl
    exact Option.some_injective _ hl
  have h2 : m.hit_objects.headD default = fst := by
    rw [List.headD_eq_head?, hf]
    rfl
  have hv : calculate_avg_nps m = some ((m.hit_objects.length : ℚ) /
      ((lst.start_time - fst.start_time) / 1000)) := by
    rw [calculate_avg_nps_eq_some hne, h1, h2]
  have hlen : (1 : ℚ) ≤ (m.hit_objects.length : ℚ) := by
    have : 1 ≤ m.hit_objects.length := List.length_pos.2 hne
    exact_mod_cast this
  refine ⟨hv, ?_⟩
  rw [hv]
  intro hc
  have heq := Option.some_injective _ hc
  rcases lt_or_eq_of_le hdur with hlt | heq0
  · have hneg : (m.hit_objects.length : ℚ) / ((lst.start_time - fst.start_time) / 1000) < 0 :=
      div_neg_of_pos_of_neg (by linarith) (by linarith)
    rw [heq] at hneg
    linarith
  · rw [heq0] at heq
    norm_num at heq
    linarith

/-- Witness for the amended C8 at the map `[5, 5]`. -/
theorem claim_C8_amended_avg_nps_degenerate_witness :
    calculate_avg_nps ⟨[⟨5⟩, ⟨5⟩]⟩ =
        some ((({ hit_objects := [⟨5⟩, ⟨5⟩] } : Beatmap).hit_objects.length : ℚ) /
          (((5 : ℚ) - 5) / 1000)) ∧
      calculate_avg_nps ⟨[⟨5⟩, ⟨5⟩]⟩ ≠
        some ((({ hit_objects := [⟨5⟩, ⟨5⟩] } : Beatmap).hit_objects.length : ℚ)) :=
  claim_C8_amended_avg_nps_degenerate ⟨[⟨5⟩, ⟨5⟩]⟩ ⟨5⟩ ⟨5⟩ (by simp) (by simp) (by norm_num)

theorem anps_error_of_eq_ends (timings : List Int) (frequency : ℚ) (fuel : Nat)
    (hne : timings ≠ []) (hz : timings.getLastD 0 = timings.headD 0) :
    calculate_average_notes_per_second timings frequency fuel =
      some (.error "Invalid duration or frequency is too high.") := by
  obtain ⟨a, t, e⟩ := List.exists_cons_of_ne_nil hne
  subst e
  simp only [calculate_average_notes_per_second, List.isEmpty_cons, Bool.false_eq_true,
    if_false]
  rw [hz]
  simp

/-- C2 counterexample: the single-event (zero-duration) sequence `[5]` is
rejected by `calculate_average_notes_per_second` with an error, for any
frequency (here 1) — contradicting the claim that no core operation
treats a zero-duration input as an error. -/
theorem claim_C2_counterexample :
    calculate_average_notes_per_second [5] 1 10 =
      some (Except.error "Invalid duration or frequency is too high.") :=
  anps_error_of_eq_ends [5] 1 10 (by simp) (by simp)

/-- C2 amended: on zero-duration (first = last timestamp) non-empty
inputs, `calculate_distribution` (with a positive bucket count) and
`calculate_avg_nps` do return success values, but
`calculate_average_notes_per_second` returns the error
"Invalid duration or frequency is too high." for every frequency, because
`interval_ms = duration * frequency / 100 = 0` fails its positivity
check. -/
theorem claim_C2_amended_degenerate_success (m : Beatmap) (block : Int)
    (timings : List Int) (frequency : ℚ) (fuel : Nat)
    (hne : m.hit_objects ≠ []) (hb : 0 < block)
    (htne : timings ≠ []) (htz : timings.getLastD 0 = timings.headD 0) :
    (calculate_distribution m block).isSome = true ∧
      (calculate_avg_nps m).isSome = true ∧
      calculate_average_notes_per_second timings frequency fuel =
        some (.error "Invalid duration or frequency is too high.") := by
  obtain ⟨v, hv, _⟩ := calculate_distribution_spec hb hne
  refine ⟨by rw [hv]; rfl, ?_, anps_error_of_eq_ends timings frequency fuel htne htz⟩
  rw [calculate_avg_nps_eq_some hne]
  rfl

/-- Witness for the amended C2: the one-object map `[5]`, one bucket, the
timing sequence `[5]`, frequency 1. -/
theorem claim_C2_amended_degenerate_success_witness :
    (calculate_distribution ⟨[⟨5⟩]⟩ 1).isSome = true ∧
      (calculate_avg_nps ⟨[⟨5⟩]⟩).isSome = true ∧
      calculate_average_notes_per_second [5] 1 0 =
        some (.error "Invalid duration or frequency is too high.") :=
  claim_C2_amended_degenerate_success ⟨[⟨5⟩]⟩ 1 [5] 1 0 (by simp) (by norm_num)
    (by simp) (by simp)

/-! ## Loop lemmas for `calculate_average_notes_per_second` -/

theorem npsLoop_exit (timings : List Int) (d : Int) (ims : ℚ) (endt : Int)
    (fuel : Nat) (s : Int) (i : Nat) (h : ¬ s < endt) :
    npsLoop timings d ims endt fuel s i = some ([], s, i) := by
  cases fuel <;> simp [npsLoop, h]

theorem npsLoop_zero_step (timings : List Int) (ims : ℚ) (endt : Int)
    (fuel : Nat) (s : Int) (i : Nat) (hs : s < endt) :
    npsLoop timings 0 ims endt fuel s i = none := by
  induction fuel generalizing i with
  | zero => simp [npsLoop, hs]
  | succ n ih => simp [npsLoop, hs, ih]

theorem npsLoop_final (timings : List Int) (d : Int) (ims : ℚ) (endt : Int)
    (hd : 0 < d) :
    ∀ (fuel : Nat) (s : Int) (i : Nat) (l : List KeyValue) (sf : Int) (nf : Nat),
      npsLoop timings d ims endt fuel s i = some (l, sf, nf) → s < endt →
        endt ≤ sf ∧ sf < endt + d ∧ d ∣ (sf - s) ∧ nf = partitionPointLt timings sf := by
  intro fuel
  induction fuel with
  | zero =>
    intro s i l sf nf h hs
    simp [npsLoop, hs] at h
  | succ n ih =>
    intro s i l sf nf h hs
    simp only [npsLoop, if_pos hs] at h
    by_cases h2 : s + d < endt
    · rcases hrec : npsLoop timings d ims endt n (s + d)
          (partitionPointLt timings (s + d)) with _ | out
      · rw [hrec] at h
        simp at h
      · obtain ⟨rest, s2, i2⟩ := out
        rw [hrec] at h
        simp only [Option.some.injEq, Prod.mk.injEq] at h
        obtain ⟨-, hsf, hnf⟩ := h
        obtain ⟨h3, h4, h5, h6⟩ := ih (s + d) _ rest s2 i2 hrec h2
        subst hsf hnf
        refine ⟨h3, by omega, ?_, h6⟩
        obtain ⟨c, hc⟩ := h5
        refine ⟨c + 1, ?_⟩
        have h7 : s2 - s = d * c + d := by omega
        rw [h7]
        ring
    · rw [npsLoop_exit timings d ims endt n (s + d) _ h2] at h
      simp only [Option.some.injEq, Prod.mk.injEq] at h
      obtain ⟨-, hsf, hnf⟩ := h
      subst hsf hnf
      exact ⟨by omega, by omega, ⟨1, by omega⟩, rfl⟩

theorem f64ToI32_nonneg (q : ℚ) (h : 0 ≤ q) : 0 ≤ f64ToI32 q := by
  have h0 : (0 : Int) ≤ ⌊q⌋ := Int.floor_nonneg.2 h
  unfold f64ToI32 ratTrunc
  rw [if_neg (not_lt.2 h)]
  split_ifs <;> omega

theorem sorted_le_getLastD (l : List Int) (hs : l.Sorted (· ≤ ·)) :
    ∀ (d x : Int), x ∈ l → x ≤ l.getLastD d := by
  induction l with
  | nil =>
    intro d x hx
    simp at hx
  | cons a t ih =>
    intro d x hx
    rw [List.getLastD_cons]
    rcases List.mem_cons.1 hx with rfl | hxt
    · rcases eq_or_ne t [] with rfl | hne
      · simp
      · rw [List.getLastD_eq_getLast?, List.getLast?_eq_getLast t hne, Option.getD_some]
        exact List.rel_of_sorted_cons hs _ (List.getLast_mem hne)
    · exact ih (List.Sorted.of_cons hs) a x hxt

theorem partitionPointLt_eq_length (l : List Int) (e : Int) (h : ∀ x ∈ l, x < e) :
    partitionPointLt l e = l.length := by
  unfold partitionPointLt
  rw [List.takeWhile_eq_self_iff.2 (by simpa using h)]

/-- C1 (code bug): at `timings = [0, 10]`, `frequency = 1.0`, the computed
`interval_ms = (10 * 1) / 100 = 0.1` passes the positivity check but
truncates to an integer step of `0`, so `interval_start` never advances
and the `while` loop never exits: under the fuel semantics the function
returns `none` (fuel exhausted) for EVERY fuel bound, i.e. the Rust code
diverges, contradicting the claim that every call returns after finitely
many iterations. -/
theorem claim_C1_nontermination_when_interval_lt_one (fuel : Nat) :
    calculate_average_notes_per_second [0, 10] 1 fuel = none := by
  simp only [calculate_average_notes_per_second, List.isEmpty_cons, Bool.false_eq_true,
    if_false, List.headD_cons]
  have hlast : ([0, 10] : List Int).getLastD 0 = 10 := rfl
  rw [hlast]
  have hm : (((10 : Int) - 0 : Int) : ℚ) * 1 / 100 = 1 / 10 := by norm_num
  rw [hm]
  rw [if_neg (by norm_num : ¬ (1 / 10 : ℚ) ≤ 0)]
  have hf : ⌊(1 / 10 : ℚ)⌋ = 0 := by norm_num
  have hd : f64ToI32 (1 / 10 : ℚ) = 0 := by
    unfold f64ToI32 ratTrunc
    rw [if_neg (by norm_num : ¬ (1 / 10 : ℚ) < 0), hf]
    norm_num
  rw [hd, npsLoop_zero_step [0, 10] (1 / 10) 10 fuel 0 0 (by norm_num)]

/-- C4 counterexample: on `timings = [0, 100, 200]` with `frequency = 50`
the function returns `Ok` (step `interval_ms = 100` divides the duration
200 exactly), yet the final `current_note_index` of the loop is 2, not 3:
the final event at timestamp 200 sits exactly on the exclusive upper
boundary of the last interval (`partition_point(x < 200)`) and is counted in
no interval — refuting "the final event is never dropped". -/
theorem claim_C4_counterexample :
    calculate_average_notes_per_second [0, 100, 200] 50 10 =
        some (Except.ok [⟨0, 10⟩, ⟨100, 10⟩]) ∧
      npsLoop [0, 100, 200] 100 100 200 10 0 0 =
        some ([⟨0, 10⟩, ⟨100, 10⟩], 200, 2) ∧
      (2 : Nat) ≠ ([0, 100, 200] : List Int).length := by
  refine ⟨?_, ?_, by simp⟩
  · with_unfolding_all rfl
  · with_unfolding_all rfl

theorem partitionPointLt_lt_length (l : List Int) (e : Int) (x : Int)
    (hx : x ∈ l) (hnx : ¬ x < e) : partitionPointLt l e < l.length := by
  induction l with
  | nil => simp at hx
  | cons a t ih =>
    unfold partitionPointLt at *
    by_cases hpa : a < e
    · rw [List.takeWhile_cons_of_pos (by simpa using hpa)]
      rcases List.mem_cons.1 hx with rfl | hxt
      · exact absurd hpa hnx
      · simpa using ih hxt
    · rw [List.takeWhile_cons_of_neg (by simpa using hpa)]
      simp

/-- C4 amended: for every sorted non-empty input on which
`calculate_average_notes_per_second` returns `Ok`, the final event is
counted in some interval IF AND ONLY IF the truncated step
`interval_ms as i32` does not exactly divide the duration.  Both
directions are proved for the loop run that produced the `Ok` result:
when the step does not divide, the final `current_note_index` equals the
input length (every event, the final one included, was counted in
exactly one interval) and the last interval end strictly exceeds the map
end time; when the step divides exactly, the loop stops exactly at the
end time and the final `current_note_index` is strictly below the input
length — the final event was counted in no interval. -/
theorem claim_C4_amended_final_event (timings : List Int) (frequency : ℚ) (fuel : Nat)
    (r : List KeyValue)
    (hsorted : timings.Sorted (· ≤ ·)) (hne : timings ≠ [])
    (hok : calculate_average_notes_per_second timings frequency fuel = some (.ok r)) :
    ∃ (sf : Int) (nf : Nat),
      npsLoop timings
          (f64ToI32 (((timings.getLastD 0 - timings.headD 0 : Int) : ℚ) * frequency / 100))
          (((timings.getLastD 0 - timings.headD 0 : Int) : ℚ) * frequency / 100)
          (timings.getLastD 0) fuel (timings.headD 0) 0 = some (r, sf, nf) ∧
      (¬ (f64ToI32 (((timings.getLastD 0 - timings.headD 0 : Int) : ℚ) * frequency / 100) ∣
            (timings.getLastD 0 - timings.headD 0)) →
          nf = timings.length ∧ timings.getLastD 0 < sf) ∧
      ((f64ToI32 (((timings.getLastD 0 - timings.headD 0 : Int) : ℚ) * frequency / 100) ∣
            (timings.getLastD 0 - timings.headD 0)) →
          nf < timings.length ∧ sf = timings.getLastD 0) := by
  obtain ⟨a, t, e⟩ := List.exists_cons_of_ne_nil hne
  subst e
  simp only [List.headD_cons]
  simp only [calculate_average_notes_per_second, List.isEmpty_cons, Bool.false_eq_true,
    if_false, List.headD_cons] at hok
  by_cases hc : (((a :: t).getLastD 0 - a : Int) : ℚ) * frequency / 100 ≤ 0
  · rw [if_pos hc] at hok
    simp at hok
  · rw [if_neg hc] at hok
    rcases hrec : npsLoop (a :: t)
        (f64ToI32 (((a :: t).getLastD 0 - a : Int) * frequency / 100))
        (((a :: t).getLastD 0 - a : Int) * frequency / 100)
        ((a :: t).getLastD 0) fuel a 0 with _ | out
    · rw [hrec] at hok
      simp at hok
    · obtain ⟨l, sf, nf⟩ := out
      rw [hrec] at hok
      simp only [Option.some.injEq, Except.ok.injEq] at hok
      subst hok
      have hdur0 : (0 : Int) ≤ (a :: t).getLastD 0 - a := by
        have := sorted_le_getLastD (a :: t) hsorted 0 a (by simp)
        omega
      have hdur : a < (a :: t).getLastD 0 := by
        rcases lt_or_eq_of_le hdur0 with hlt | heq
        · omega
        · exfalso
          apply hc
          rw [show ((a :: t).getLastD 0 - a : Int) = 0 by omega]
          norm_num
      have hims : (0 : ℚ) < (((a :: t).getLastD 0 - a : Int) : ℚ) * frequency / 100 :=
        not_le.1 hc
      have hd0 : 0 ≤ f64ToI32 ((((a :: t).getLastD 0 - a : Int) : ℚ) * frequency / 100) :=
        f64ToI32_nonneg _ (le_of_lt hims)
      have hdpos : 0 < f64ToI32 ((((a :: t).getLastD 0 - a : Int) : ℚ) * frequency / 100) := by
        rcases lt_or_eq_of_le hd0 with hlt | heq
        · exact hlt
        · exfalso
          rw [← heq, npsLoop_zero_step (a :: t) _ _ fuel a 0 hdur] at hrec
          exact Option.noConfusion hrec
      obtain ⟨h3, h4, h5, h6⟩ := npsLoop_final (a :: t)
        (f64ToI32 ((((a :: t).getLastD 0 - a : Int) : ℚ) * frequency / 100))
        ((((a :: t).getLastD 0 - a : Int) : ℚ) * frequency / 100)
        ((a :: t).getLastD 0) hdpos fuel a 0 l sf nf hrec hdur
      refine ⟨sf, nf, rfl, ?_, ?_⟩
      · intro hnd
        have hsf : (a :: t).getLastD 0 < sf := by
          rcases lt_or_eq_of_le h3 with hlt | heq
          · exact hlt
          · exfalso
            apply hnd
            rw [← heq] at h5
            exact h5
        have hall : ∀ x ∈ (a :: t), x < sf := fun x hx =>
          lt_of_le_of_lt (sorted_le_getLastD (a :: t) hsorted 0 x hx) hsf
        exact ⟨by rw [h6]; exact partitionPointLt_eq_length _ _ hall, hsf⟩
      · intro hdiv
        have hd2 : f64ToI32 ((((a :: t).getLastD 0 - a : Int) : ℚ) * frequency / 100) ∣
            (sf - (a :: t).getLastD 0) := by
          have := dvd_sub h5 hdiv
          simpa using this
        obtain ⟨c, hc2⟩ := hd2
        have hc2a : 0 ≤ f64ToI32 ((((a :: t).getLastD 0 - a : Int) : ℚ) * frequency / 100) * c := by
          omega
        have hc2b : f64ToI32 ((((a :: t).getLastD 0 - a : Int) : ℚ) * frequency / 100) * c <
            f64ToI32 ((((a :: t).getLastD 0 - a : Int) : ℚ) * frequency / 100) := by
          omega
        have hc0 : c = 0 := by
          rcases lt_trichotomy c 0 with h | h | h
          · exfalso
            have hneg := mul_pos hdpos (show (0 : Int) < -c by omega)
            rw [mul_neg] at hneg
            omega
          · exact h
          · exfalso
            have := mul_le_mul_of_nonneg_left (show (1 : Int) ≤ c by omega) (le_of_lt hdpos)
            omega
        have hsfe : sf = (a :: t).getLastD 0 := by
          rw [hc0, mul_zero] at hc2
          omega
        have hmem : (a :: t).getLastD 0 ∈ (a :: t) := by
          rw [List.getLastD_eq_getLast?, List.getLast?_eq_getLast _ (by simp), Option.getD_some]
          exact List.getLast_mem _
        refine ⟨?_, hsfe⟩
        rw [h6, hsfe]
        exact partitionPointLt_lt_length (a :: t) _ _ hmem (lt_irrefl _)

/-- Witness for the amended C4: `[0, 100, 200]` at frequency 30 (step 60,
duration 200). -/
theorem claim_C4_amended_final_event_witness :
    ∃ (sf : Int) (nf : Nat),
      npsLoop [0, 100, 200]
          (f64ToI32 (((([0, 100, 200] : List Int).getLastD 0 -
            ([0, 100, 200] : List Int).headD 0 : Int) : ℚ) * 30 / 100))
          (((([0, 100, 200] : List Int).getLastD 0 -
            ([0, 100, 200] : List Int).headD 0 : Int) : ℚ) * 30 / 100)
          (([0, 100, 200] : List Int).getLastD 0) 10 (([0, 100, 200] : List Int).headD 0) 0 =
        some ([⟨0, 50 / 3⟩, ⟨60, 50 / 3⟩, ⟨120, 0⟩, ⟨180, 50 / 3⟩], sf, nf) ∧
      (¬ (f64ToI32 (((([0, 100, 200] : List Int).getLastD 0 -
            ([0, 100, 200] : List Int).headD 0 : Int) : ℚ) * 30 / 100) ∣
            (([0, 100, 200] : List Int).getLastD 0 - ([0, 100, 200] : List Int).headD 0)) →
          nf = ([0, 100, 200] : List Int).length ∧ ([0, 100, 200] : List Int).getLastD 0 < sf) ∧
      ((f64ToI32 (((([0, 100, 200] : List Int).getLastD 0 -
            ([0, 100, 200] : List Int).headD 0 : Int) : ℚ) * 30 / 100) ∣
            (([0, 100, 200] : List Int).getLastD 0 - ([0, 100, 200] : List Int).headD 0)) →
          nf < ([0, 100, 200] : List Int).length ∧ sf = ([0, 100, 200] : List Int).getLastD 0) :=
  claim_C4_amended_final_event [0, 100, 200] 30 10
    [⟨0, 50 / 3⟩, ⟨60, 50 / 3⟩, ⟨120, 0⟩, ⟨180, 50 / 3⟩]
    (by decide) (by simp) (by with_unfolding_all rfl)
